import Mathlib

/-!
Shallow embedding of `llm-council`'s storage layer
(`src/backend/storage.py`, mirrored by `src/api/storage.py`) and proofs
about its leaderboard aggregation (`get_overall_scores`), its CRUD
operations over the conversation store, and their error behaviour.

Python dicts with optional fields are embedded as structures with
`Option` fields; `dict.get(key, default)` becomes `Option.getD`.
Python's arbitrary-precision integers are `Int`/`Nat`; the division
producing `average_points` / `average_position` is embedded as exact
division in `ℚ`.  The file system (one JSON document per conversation,
keyed by conversation id) is an association list from id to
conversation; JSON (de)serialisation round-trips these records and is
embedded as the identity.  Operations that can raise return
`Except String`.
-/

namespace LlmCouncil

/-- One element of a `stage2` list: `{model: ..., parsed_ranking: [...]}`.
Fields are read with `.get("model", "unknown")` / `.get("parsed_ranking", [])`
in the source, so both are optional. -/
structure RankingResult where
  model : Option String
  parsed_ranking : Option (List String)
deriving Repr, DecidableEq

/-- A message dict.  `role` distinguishes user and assistant messages;
assistant messages carry `stage1`, `stage2`, `stage3`.  All fields are
accessed with default-tolerant `.get` in the aggregator, so they are
optional. `stage1` entries and `stage3` are opaque payloads for the
claims at hand and are kept as strings. -/
structure Message where
  role : Option String
  content : Option String
  stage1 : Option (List String)
  stage2 : Option (List RankingResult)
  stage3 : Option String
deriving Repr, DecidableEq

/-- A conversation document as persisted: `id`, `created_at`, `title`,
optional `archived` flag (`data.get("archived", False)`), and the
ordered message list. -/
structure Conversation where
  id : String
  created_at : String
  title : String
  archived : Option Bool
  messages : List Message
deriving Repr, DecidableEq

/-- Per-label accumulator created in `model_scores[ranked_label]`
(storage.py lines 269-278). -/
structure ScoreEntry where
  model : String
  total_points : Int
  rankings_received : Nat
  first_places : Nat
  second_places : Nat
  third_places : Nat
  position_history : List Nat
deriving Repr, DecidableEq

/-- The fresh accumulator entry (all counters zero, empty history). -/
def initEntry (label : String) : ScoreEntry :=
  { model := label
    total_points := 0
    rankings_received := 0
    first_places := 0
    second_places := 0
    third_places := 0
    position_history := [] }

/-- One accumulation step for a label seen at 0-indexed `position`
worth `points` (storage.py lines 280-289). -/
def bumpEntry (e : ScoreEntry) (points : Int) (position : Nat) : ScoreEntry :=
  { e with
    total_points := e.total_points + points
    rankings_received := e.rankings_received + 1
    position_history := e.position_history ++ [position + 1]
    first_places := if position = 0 then e.first_places + 1 else e.first_places
    second_places := if position = 1 then e.second_places + 1 else e.second_places
    third_places := if position = 2 then e.third_places + 1 else e.third_places }

/-- `model_scores` is a Python dict, which preserves insertion order;
we embed it as an insertion-ordered list of entries keyed by `model`.
`updateScores` performs the dict lookup-or-initialise plus the
accumulation of lines 268-289. -/
def updateScores (scores : List ScoreEntry) (label : String) (points : Int)
    (position : Nat) : List ScoreEntry :=
  match scores with
  | [] => [bumpEntry (initEntry label) points position]
  | e :: rest =>
    if e.model = label then bumpEntry e points position :: rest
    else e :: updateScores rest label points position

/-- The inner loop `for position, ranked_label in enumerate(parsed_ranking)`
with `points = num_models - position` (lines 265-289). -/
def processRanking (scores : List ScoreEntry) (num_models : Nat)
    (labels : List String) : List ScoreEntry :=
  labels.enum.foldl
    (fun sc pl => updateScores sc pl.2 ((num_models : Int) - (pl.1 : Int)) pl.1)
    scores

/-- Mutable aggregation state of `get_overall_scores`:
`model_scores`, `total_conversations`, `total_rankings`. -/
structure AggState where
  scores : List ScoreEntry
  total_conversations : Nat
  total_rankings : Nat
deriving Repr, DecidableEq

/-- Body of `for ranking_result in stage2` (lines 254-289): a ranking
result with a missing or empty `parsed_ranking` is skipped; otherwise
`total_rankings` is incremented and the ranking is folded in. -/
def processRankingResult (num_models : Nat) (st : AggState)
    (r : RankingResult) : AggState :=
  if r.parsed_ranking.getD [] = [] then st
  else
    { st with
      total_rankings := st.total_rankings + 1
      scores := processRanking st.scores num_models (r.parsed_ranking.getD []) }

/-- Body of `for message in data.get("messages", [])` (lines 240-289):
non-assistant messages and messages with a missing or empty `stage2`
are skipped; otherwise `total_conversations` is incremented,
`num_models = len(stage2)`, and every ranking result is processed. -/
def processMessage (st : AggState) (m : Message) : AggState :=
  if m.role ≠ some "assistant" then st
  else if m.stage2.getD [] = [] then st
  else
    (m.stage2.getD []).foldl (processRankingResult (m.stage2.getD []).length)
      { st with total_conversations := st.total_conversations + 1 }

/-- Body of the outer conversation loop (lines 227-289): archived
conversations are skipped, otherwise every message is processed. -/
def processConversation (st : AggState) (c : Conversation) : AggState :=
  if c.archived.getD false then st
  else c.messages.foldl processMessage st

/-- A leaderboard entry as returned: the accumulator fields plus the
two averages, with `position_history` deleted (lines 295-297). -/
structure FinalEntry where
  model : String
  total_points : Int
  rankings_received : Nat
  first_places : Nat
  second_places : Nat
  third_places : Nat
  average_position : ℚ
  average_points : ℚ
deriving Repr, DecidableEq

/-- Lines 294-297: compute `average_position` and `average_points` and
drop the raw `position_history` from the response. -/
def finalizeEntry (e : ScoreEntry) : FinalEntry :=
  { model := e.model
    total_points := e.total_points
    rankings_received := e.rankings_received
    first_places := e.first_places
    second_places := e.second_places
    third_places := e.third_places
    average_position :=
      ((e.position_history.map (fun p : Nat => (p : ℚ))).sum) /
        (e.position_history.length : ℚ)
    average_points := (e.total_points : ℚ) / (e.rankings_received : ℚ) }

/-- Lines 292-298: keep entries with `rankings_received > 0` (in dict
insertion order) and finalize each. -/
def buildLeaderboard (scores : List ScoreEntry) : List FinalEntry :=
  (scores.filter (fun e => 0 < e.rankings_received)).map finalizeEntry

/-- The value returned by `get_overall_scores` (lines 303-307). -/
structure ScoresResult where
  leaderboard : List FinalEntry
  total_conversations_analyzed : Nat
  total_rankings_processed : Nat
deriving Repr, DecidableEq

/-- `get_overall_scores` (storage.py lines 210-307), as a function of
the stored conversations.  `leaderboard.sort(key=..., reverse=True)`
is Python's stable sort by `total_points` descending; `mergeSort`
with `b.total_points ≤ a.total_points` is the same stable sort. -/
def get_overall_scores (convs : List Conversation) : ScoresResult :=
  let st := convs.foldl processConversation ⟨[], 0, 0⟩
  { leaderboard :=
      (buildLeaderboard st.scores).mergeSort
        (fun a b => decide (b.total_points ≤ a.total_points))
    total_conversations_analyzed := st.total_conversations
    total_rankings_processed := st.total_rankings }

/-! ## The conversation store (file-backed variant)

`DATA_DIR` holds one JSON file per conversation, named `{id}.json`.
We embed the directory as an association list from conversation id to
conversation document. -/

/-- The data directory: id ↦ stored conversation document. -/
abbrev Store := List (String × Conversation)

/-- `get_conversation` (lines 48-64): look the file up, `None` when the
path does not exist. -/
def get_conversation (s : Store) (conversation_id : String) :
    Option Conversation :=
  match s with
  | [] => none
  | (i, c) :: rest =>
    if i = conversation_id then some c else get_conversation rest conversation_id

/-- `save_conversation` (lines 67-78): write the document at the path
derived from `conversation['id']`, overwriting any existing file. -/
def save_conversation (s : Store) (conversation : Conversation) : Store :=
  match s with
  | [] => [(conversation.id, conversation)]
  | (i, c) :: rest =>
    if i = conversation.id then (i, conversation) :: rest
    else (i, c) :: save_conversation rest conversation

/-- `add_user_message` (lines 117-134): raises
`ValueError(f"Conversation {conversation_id} not found")` when the
conversation does not exist, otherwise appends the user message and
saves. -/
def add_user_message (s : Store) (conversation_id : String)
    (content : String) : Except String Store :=
  match get_conversation s conversation_id with
  | none => .error ("Conversation " ++ conversation_id ++ " not found")
  | some conversation =>
    .ok (save_conversation s
      { conversation with
        messages := conversation.messages ++
          [{ role := some "user", content := some content,
             stage1 := none, stage2 := none, stage3 := none }] })

/-- `add_assistant_message` (lines 137-163): same not-found behaviour,
otherwise appends the three-stage assistant message and saves. -/
def add_assistant_message (s : Store) (conversation_id : String)
    (stage1 : List String) (stage2 : List RankingResult) (stage3 : String) :
    Except String Store :=
  match get_conversation s conversation_id with
  | none => .error ("Conversation " ++ conversation_id ++ " not found")
  | some conversation =>
    .ok (save_conversation s
      { conversation with
        messages := conversation.messages ++
          [{ role := some "assistant", content := none,
             stage1 := some stage1, stage2 := some stage2,
             stage3 := some stage3 }] })

/-- `update_conversation_title` (lines 166-179). -/
def update_conversation_title (s : Store) (conversation_id : String)
    (title : String) : Except String Store :=
  match get_conversation s conversation_id with
  | none => .error ("Conversation " ++ conversation_id ++ " not found")
  | some conversation =>
    .ok (save_conversation s { conversation with title := title })

/-- `archive_conversation` (lines 182-195). -/
def archive_conversation (s : Store) (conversation_id : String)
    (archived : Bool) : Except String Store :=
  match get_conversation s conversation_id with
  | none => .error ("Conversation " ++ conversation_id ++ " not found")
  | some conversation =>
    .ok (save_conversation s { conversation with archived := some archived })

/-- `delete_conversation` (lines 198-207): remove the file if it
exists; no exception is ever raised (the `os.path.exists` guard makes
the missing-id case a silent no-op). -/
def delete_conversation (s : Store) (conversation_id : String) :
    Except String Store :=
  .ok (s.filter (fun p => p.1 ≠ conversation_id))

/-! ## An event view of the aggregation

The aggregation loop touches `model_scores` exactly once per pair
`(position, ranked_label)` of a processed `parsed_ranking`.  We
flatten the nested loops of `get_overall_scores` into the list of
these *events*, each recording the ranked label, the `num_models`
of the enclosing `stage2`, and the 0-indexed position, and prove that
the accumulator is the fold of `updateScores` over this list. -/

/-- An occurrence event: (ranked label, `num_models`, 0-indexed position). -/
abbrev Event := String × Nat × Nat

/-- One accumulator step, as driven by an event. -/
def stepEv (sc : List ScoreEntry) (ev : Event) : List ScoreEntry :=
  updateScores sc ev.1 ((ev.2.1 : Int) - (ev.2.2 : Int)) ev.2.2

/-- Events of one `parsed_ranking` under a given `num_models`. -/
def eventsOfRanking (num_models : Nat) (labels : List String) : List Event :=
  labels.enum.map (fun pl => (pl.2, num_models, pl.1))

/-- Events contributed by one ranking result of a `stage2`. -/
def eventsOfResult (num_models : Nat) (r : RankingResult) : List Event :=
  if r.parsed_ranking.getD [] = [] then []
  else eventsOfRanking num_models (r.parsed_ranking.getD [])

/-- Events contributed by one message. -/
def eventsOfMessage (m : Message) : List Event :=
  if m.role ≠ some "assistant" then []
  else if m.stage2.getD [] = [] then []
  else (m.stage2.getD []).flatMap (eventsOfResult (m.stage2.getD []).length)

/-- Events contributed by one conversation. -/
def eventsOfConversation (c : Conversation) : List Event :=
  if c.archived.getD false then [] else c.messages.flatMap eventsOfMessage

/-- All events of a stored collection, in traversal order. -/
def events (convs : List Conversation) : List Event :=
  convs.flatMap eventsOfConversation

/-- Contribution of one ranking result to `total_rankings`. -/
def rankCountOfResult (r : RankingResult) : Nat :=
  if r.parsed_ranking.getD [] = [] then 0 else 1

/-- Contribution of one message to `total_conversations`. -/
def msgAnalyzed (m : Message) : Nat :=
  if m.role ≠ some "assistant" then 0
  else if m.stage2.getD [] = [] then 0
  else 1

/-- Contribution of one message to `total_rankings`. -/
def msgRankCount (m : Message) : Nat :=
  if m.role ≠ some "assistant" then 0
  else if m.stage2.getD [] = [] then 0
  else ((m.stage2.getD []).map rankCountOfResult).sum

/-- Contribution of one conversation to `total_conversations`. -/
def convAnalyzed (c : Conversation) : Nat :=
  if c.archived.getD false then 0 else (c.messages.map msgAnalyzed).sum

/-- Contribution of one conversation to `total_rankings`. -/
def convRankCount (c : Conversation) : Nat :=
  if c.archived.getD false then 0 else (c.messages.map msgRankCount).sum

/-- The accumulator built by folding the events from an empty dict. -/
def buildScores (evs : List Event) : List ScoreEntry := evs.foldl stepEv []

/-! ### Per-label view of the dict

`model_scores` holds, per ranked label, statistics computed from the
sub-list of events carrying that label.  `labelsOf` is the dict's key
sequence (insertion order = order of first appearance), `entrySpec`
the value stored under a key. -/

/-- Append a key to the key sequence unless already present
(insertion into a Python dict). -/
def insertLabel (ls : List String) (L : String) : List String :=
  if L ∈ ls then ls else ls ++ [L]

/-- The dict's key sequence after processing a list of events. -/
def labelsOf (evs : List Event) : List String :=
  evs.foldl (fun ls ev => insertLabel ls ev.1) []

/-- The events carrying a given label, in order. -/
def eventsFor (evs : List Event) (L : String) : List Event :=
  evs.filter (fun ev => decide (ev.1 = L))

/-- The accumulator entry a label holds after a list of events. -/
def entrySpec (evs : List Event) (L : String) : ScoreEntry :=
  { model := L
    total_points := ((eventsFor evs L).map (fun ev => (ev.2.1 : Int) - (ev.2.2 : Int))).sum
    rankings_received := (eventsFor evs L).length
    first_places := ((eventsFor evs L).filter (fun ev => decide (ev.2.2 = 0))).length
    second_places := ((eventsFor evs L).filter (fun ev => decide (ev.2.2 = 1))).length
    third_places := ((eventsFor evs L).filter (fun ev => decide (ev.2.2 = 2))).length
    position_history := (eventsFor evs L).map (fun ev => ev.2.2 + 1) }

/-! ### Specification-side views used by the claims -/

/-- The sub-collection of non-archived conversations. -/
def nonArchived (convs : List Conversation) : List Conversation :=
  convs.filter (fun c => !(c.archived.getD false))

/-- An assistant-role message with a non-empty `stage2`. -/
def isAnalyzedMessage (m : Message) : Bool :=
  m.role == some "assistant" && !(m.stage2.getD []).isEmpty

/-- All assistant messages with non-empty `stage2` across the
non-archived conversations, in traversal order. -/
def analyzedMessages (convs : List Conversation) : List Message :=
  ((nonArchived convs).flatMap Conversation.messages).filter isAnalyzedMessage

/-- Number of ranking results of a message with non-empty
`parsed_ranking`. -/
def processedRankingCount (m : Message) : Nat :=
  ((m.stage2.getD []).filter
    (fun r => !(r.parsed_ranking.getD []).isEmpty)).length

/-- The occurrences of a label across all processed `parsed_ranking`
sequences: each occurrence records the label, the `len(stage2)` of its
message, and its 0-indexed position. -/
def occurrencesOf (convs : List Conversation) (L : String) : List Event :=
  eventsFor (events convs) L

/-! ### Concrete conversations used by scenarios and witnesses -/

/-- The spec's scenario: one conversation, one assistant message,
`stage2 = [{model:"judgeA", parsed_ranking:["m1","m2"]}]`. -/
def scenarioConversation : Conversation :=
  { id := "c1", created_at := "2024-01-01T00:00:00", title := "New Conversation",
    archived := none,
    messages :=
      [{ role := some "assistant", content := none, stage1 := none,
         stage2 := some [{ model := some "judgeA",
                           parsed_ranking := some ["m1", "m2"] }],
         stage3 := none }] }

/-- One judge (`num_models = 1`) ranking three labels: the third
label's points are `1 - 2 = -1`. -/
def longRankingConversation : Conversation :=
  { id := "c2", created_at := "2024-01-02T00:00:00", title := "New Conversation",
    archived := none,
    messages :=
      [{ role := some "assistant", content := none, stage1 := none,
         stage2 := some [{ model := some "judgeA",
                           parsed_ranking := some ["m1", "m2", "m3"] }],
         stage3 := none }] }

/-- An archived conversation that nevertheless carries ranking data. -/
def archivedConversation : Conversation :=
  { id := "c3", created_at := "2024-01-03T00:00:00", title := "New Conversation",
    archived := some true,
    messages :=
      [{ role := some "assistant", content := none, stage1 := none,
         stage2 := some [{ model := some "judgeB",
                           parsed_ranking := some ["m9", "m8"] }],
         stage3 := none }] }

/-- The finalized leaderboard entry for "m1" in the scenario. -/
def scenarioEntryM1 : FinalEntry := ⟨"m1", 1, 1, 1, 0, 0, 1, 1⟩

/-- The finalized leaderboard entry for "m2" in the scenario. -/
def scenarioEntryM2 : FinalEntry := ⟨"m2", 0, 1, 0, 1, 0, 2, 0⟩

/-- Generic shape shared by the three nested loops: if each element
acts on the state by folding its events into the scores and adding its
two counter contributions, then so does the fold over a list of
elements. -/
theorem foldl_aggSpec {α : Type} (F : AggState → α → AggState) (g : α → List Event)
    (f1 f2 : α → Nat)
    (hF : ∀ st x, F st x =
      ⟨(g x).foldl stepEv st.scores, st.total_conversations + f1 x,
        st.total_rankings + f2 x⟩) :
    ∀ (xs : List α) (st : AggState), xs.foldl F st =
      ⟨(xs.flatMap g).foldl stepEv st.scores,
        st.total_conversations + (xs.map f1).sum,
        st.total_rankings + (xs.map f2).sum⟩ := by
  intro xs
  induction xs with
  | nil => intro st; simp
  | cons x xs ih =>
    intro st
    rw [List.foldl_cons, hF, ih]
    simp [List.foldl_append, Nat.add_assoc]

/-- The ranking-result step in event form. -/
theorem processRankingResult_eq (n : Nat) (st : AggState) (r : RankingResult) :
    processRankingResult n st r =
      ⟨(eventsOfResult n r).foldl stepEv st.scores,
        st.total_conversations + 0,
        st.total_rankings + rankCountOfResult r⟩ := by
  unfold processRankingResult eventsOfResult rankCountOfResult
  by_cases h : r.parsed_ranking.getD [] = []
  · simp [h]
  · simp only [h, if_false]
    unfold processRanking eventsOfRanking stepEv
    simp [List.foldl_map]

/-- The message step in event form. -/
theorem processMessage_eq (st : AggState) (m : Message) :
    processMessage st m =
      ⟨(eventsOfMessage m).foldl stepEv st.scores,
        st.total_conversations + msgAnalyzed m,
        st.total_rankings + msgRankCount m⟩ := by
  unfold processMessage eventsOfMessage msgAnalyzed msgRankCount
  by_cases hrole : m.role = some "assistant"
  · by_cases h2 : m.stage2.getD [] = []
    · simp [hrole, h2]
    · simp only [hrole, h2, if_false, ite_not, if_true, not_true, ite_false]
      rw [foldl_aggSpec (processRankingResult (m.stage2.getD []).length)
            (eventsOfResult (m.stage2.getD []).length) (fun _ => 0) rankCountOfResult
            (processRankingResult_eq _)]
      simp [Nat.add_comm]
  · simp [hrole]

/-- The conversation step in event form. -/
theorem processConversation_eq (st : AggState) (c : Conversation) :
    processConversation st c =
      ⟨(eventsOfConversation c).foldl stepEv st.scores,
        st.total_conversations + convAnalyzed c,
        st.total_rankings + convRankCount c⟩ := by
  unfold processConversation eventsOfConversation convAnalyzed convRankCount
  by_cases ha : c.archived.getD false
  · simp [ha]
  · simp only [ha, if_false]
    exact foldl_aggSpec processMessage eventsOfMessage msgAnalyzed msgRankCount
      processMessage_eq c.messages st

/-- `get_overall_scores` in event form. -/
theorem get_overall_scores_eq (convs : List Conversation) :
    get_overall_scores convs =
      { leaderboard := (buildLeaderboard (buildScores (events convs))).mergeSort
          (fun a b => decide (b.total_points ≤ a.total_points))
        total_conversations_analyzed := (convs.map convAnalyzed).sum
        total_rankings_processed := (convs.map convRankCount).sum } := by
  unfold get_overall_scores buildScores events
  rw [foldl_aggSpec processConversation eventsOfConversation convAnalyzed convRankCount
    processConversation_eq convs ⟨[], 0, 0⟩]
  simp

/-! ## Per-label characterization of the accumulator -/

theorem labelsOf_append_singleton (evs : List Event) (ev : Event) :
    labelsOf (evs ++ [ev]) = insertLabel (labelsOf evs) ev.1 := by
  unfold labelsOf
  rw [List.foldl_append]
  rfl

theorem mem_labelsOf (evs : List Event) (L : String) :
    L ∈ labelsOf evs ↔ ∃ ev ∈ evs, ev.1 = L := by
  induction evs using List.reverseRecOn generalizing L with
  | nil => simp [labelsOf]
  | append_singleton evs ev ih =>
    rw [labelsOf_append_singleton]
    unfold insertLabel
    by_cases h : ev.1 ∈ labelsOf evs
    · rw [if_pos h]
      rw [ih]
      constructor
      · rintro ⟨e, he, rfl⟩
        exact ⟨e, List.mem_append_left _ he, rfl⟩
      · rintro ⟨e, he, rfl⟩
        rcases List.mem_append.mp he with he' | he'
        · exact ⟨e, he', rfl⟩
        · rw [List.mem_singleton] at he'
          subst he'
          exact (ih e.1).mp h
    · rw [if_neg h]
      rw [List.mem_append, List.mem_singleton, ih]
      constructor
      · rintro (⟨e, he, rfl⟩ | rfl)
        · exact ⟨e, List.mem_append_left _ he, rfl⟩
        · exact ⟨ev, List.mem_append_right _ (List.mem_singleton_self ev), rfl⟩
      · rintro ⟨e, he, rfl⟩
        rcases List.mem_append.mp he with he' | he'
        · exact Or.inl ⟨e, he', rfl⟩
        · rw [List.mem_singleton] at he'
          subst he'
          exact Or.inr rfl

theorem nodup_labelsOf (evs : List Event) : (labelsOf evs).Nodup := by
  induction evs using List.reverseRecOn with
  | nil => simp [labelsOf]
  | append_singleton evs ev ih =>
    rw [labelsOf_append_singleton]
    unfold insertLabel
    by_cases h : ev.1 ∈ labelsOf evs
    · rwa [if_pos h]
    · rw [if_neg h]
      simp [List.nodup_append, ih, h]

theorem eventsFor_append (evs₁ evs₂ : List Event) (L : String) :
    eventsFor (evs₁ ++ evs₂) L = eventsFor evs₁ L ++ eventsFor evs₂ L :=
  List.filter_append _ _

theorem eventsFor_eq_nil_of_not_mem_labelsOf (evs : List Event) (L : String)
    (h : L ∉ labelsOf evs) : eventsFor evs L = [] := by
  rw [eventsFor, List.filter_eq_nil_iff]
  intro ev hev
  simp only [decide_eq_true_eq]
  intro heq
  exact h ((mem_labelsOf evs L).mpr ⟨ev, hev, heq⟩)

theorem entrySpec_nil (L : String) : entrySpec [] L = initEntry L := rfl

theorem entrySpec_append_singleton (evs : List Event) (ev : Event) (L : String) :
    entrySpec (evs ++ [ev]) L =
      if ev.1 = L then
        bumpEntry (entrySpec evs L) ((ev.2.1 : Int) - (ev.2.2 : Int)) ev.2.2
      else entrySpec evs L := by
  by_cases h : ev.1 = L
  · rw [if_pos h]
    have hfor : eventsFor (evs ++ [ev]) L = eventsFor evs L ++ [ev] := by
      rw [eventsFor_append]
      simp [eventsFor, h]
    simp only [entrySpec, bumpEntry, hfor]
    simp [List.filter_append, List.sum_append, List.filter_singleton,
      apply_ite List.length]
    refine ⟨?_, ?_, ?_⟩ <;> (split_ifs with hh <;> simp [hh])
  · rw [if_neg h]
    have hfor : eventsFor (evs ++ [ev]) L = eventsFor evs L := by
      rw [eventsFor_append]
      simp [eventsFor, h]
    simp only [entrySpec, hfor]

theorem bumpEntry_model (e : ScoreEntry) (pts : Int) (p : Nat) :
    (bumpEntry e pts p).model = e.model := rfl

theorem updateScores_not_mem (sc : List ScoreEntry) (L : String) (pts : Int) (p : Nat)
    (h : L ∉ sc.map ScoreEntry.model) :
    updateScores sc L pts p = sc ++ [bumpEntry (initEntry L) pts p] := by
  induction sc with
  | nil => rfl
  | cons e rest ih =>
    simp only [List.map_cons, List.mem_cons] at h
    push_neg at h
    unfold updateScores
    rw [if_neg (fun he => h.1 he.symm), ih h.2]
    rfl

theorem updateScores_map (f : String → ScoreEntry) (hf : ∀ M, (f M).model = M)
    (labels : List String) (L : String) (pts : Int) (p : Nat)
    (hnd : labels.Nodup) (hL : L ∈ labels) :
    updateScores (labels.map f) L pts p =
      labels.map (fun M => if M = L then bumpEntry (f M) pts p else f M) := by
  induction labels with
  | nil => cases hL
  | cons M ls ih =>
    rw [List.map_cons, List.map_cons]
    unfold updateScores
    rw [hf]
    by_cases hML : M = L
    · rw [if_pos hML, if_pos hML]
      congr 1
      have hnotin : L ∉ ls := hML ▸ (List.nodup_cons.mp hnd).1
      refine (List.map_congr_left fun a ha => ?_).symm
      rw [if_neg fun hq => hnotin (by rw [← hq]; exact ha)]
    · rw [if_neg hML, if_neg hML]
      congr 1
      exact ih (List.nodup_cons.mp hnd).2
        ((List.mem_cons.mp hL).resolve_left (fun hq => hML hq.symm))

theorem buildScores_eq (evs : List Event) :
    buildScores evs = (labelsOf evs).map (entrySpec evs) := by
  induction evs using List.reverseRecOn with
  | nil => rfl
  | append_singleton evs ev ih =>
    unfold buildScores at ih ⊢
    rw [List.foldl_append, ih, List.foldl_cons, List.foldl_nil,
      labelsOf_append_singleton]
    unfold stepEv insertLabel
    by_cases h : ev.1 ∈ labelsOf evs
    · rw [if_pos h,
        updateScores_map (entrySpec evs) (fun M => rfl) _ _ _ _ (nodup_labelsOf evs) h]
      refine List.map_congr_left fun M hM => ?_
      rw [entrySpec_append_singleton]
      by_cases hML : ev.1 = M
      · rw [if_pos hML.symm, if_pos hML]
      · rw [if_neg (fun hq => hML hq.symm), if_neg hML]
    · rw [if_neg h, updateScores_not_mem, List.map_append]
      · congr 1
        · refine List.map_congr_left fun M hM => ?_
          rw [entrySpec_append_singleton,
            if_neg (fun hq : ev.1 = M => h (by rw [hq]; exact hM))]
        · rw [List.map_singleton, entrySpec_append_singleton, if_pos rfl]
          have hzero : entrySpec evs ev.1 = initEntry ev.1 := by
            have hnone := eventsFor_eq_nil_of_not_mem_labelsOf evs ev.1 h
            simp [entrySpec, hnone, initEntry]
          rw [hzero]
      · intro hmem
        apply h
        rw [List.map_map] at hmem
        have : (ScoreEntry.model ∘ entrySpec evs) = fun M => M := by
          funext M
          rfl
        rw [this] at hmem
        simpa using hmem

theorem entrySpec_rankings_pos (evs : List Event) (L : String)
    (h : L ∈ labelsOf evs) : 0 < (entrySpec evs L).rankings_received := by
  obtain ⟨ev, hmem, hlab⟩ := (mem_labelsOf evs L).mp h
  have hevf : ev ∈ eventsFor evs L :=
    List.mem_filter.mpr ⟨hmem, by simp [hlab]⟩
  simpa [entrySpec] using List.length_pos.mpr (List.ne_nil_of_mem hevf)

/-- The leaderboard is the stable descending sort (by `total_points`)
of the finalized per-label aggregates, listed by first appearance. -/
theorem leaderboard_eq (convs : List Conversation) :
    (get_overall_scores convs).leaderboard =
      ((labelsOf (events convs)).map
        (fun L => finalizeEntry (entrySpec (events convs) L))).mergeSort
        (fun a b => decide (b.total_points ≤ a.total_points)) := by
  rw [get_overall_scores_eq]
  show (buildLeaderboard (buildScores (events convs))).mergeSort _ = _
  rw [buildScores_eq]
  unfold buildLeaderboard
  rw [List.filter_eq_self.mpr, List.map_map]
  · rfl
  · intro e he
    obtain ⟨L, hL, rfl⟩ := List.mem_map.mp he
    simpa using entrySpec_rankings_pos (events convs) L hL

/-! ## Relating the counters to the claims' counting views -/

theorem msgAnalyzed_eq (m : Message) :
    msgAnalyzed m = if isAnalyzedMessage m then 1 else 0 := by
  unfold msgAnalyzed isAnalyzedMessage
  by_cases hrole : m.role = some "assistant" <;>
    by_cases h2 : m.stage2.getD [] = [] <;>
    simp [hrole, h2, List.isEmpty_iff]

theorem rankCountOfResult_eq (r : RankingResult) :
    rankCountOfResult r =
      if !(r.parsed_ranking.getD []).isEmpty then 1 else 0 := by
  unfold rankCountOfResult
  by_cases h : r.parsed_ranking.getD [] = [] <;> simp [h, List.isEmpty_iff]

theorem sum_rankCountOfResult (rs : List RankingResult) :
    (rs.map rankCountOfResult).sum =
      (rs.filter (fun r => !(r.parsed_ranking.getD []).isEmpty)).length := by
  induction rs with
  | nil => rfl
  | cons r rs ih =>
    rw [List.map_cons, List.sum_cons, List.filter_cons, rankCountOfResult_eq]
    by_cases h : !(r.parsed_ranking.getD []).isEmpty <;>
      simp [h, ih, Nat.add_comm]

theorem msgRankCount_eq (m : Message) :
    msgRankCount m = if isAnalyzedMessage m then processedRankingCount m else 0 := by
  unfold msgRankCount isAnalyzedMessage processedRankingCount
  by_cases hrole : m.role = some "assistant" <;>
    by_cases h2 : m.stage2.getD [] = [] <;>
    simp [hrole, h2, List.isEmpty_iff, sum_rankCountOfResult]

theorem sum_msgAnalyzed (msgs : List Message) :
    (msgs.map msgAnalyzed).sum = (msgs.filter isAnalyzedMessage).length := by
  induction msgs with
  | nil => rfl
  | cons m msgs ih =>
    rw [List.map_cons, List.sum_cons, List.filter_cons, msgAnalyzed_eq]
    by_cases h : isAnalyzedMessage m <;> simp [h, ih, Nat.add_comm]

theorem sum_msgRankCount (msgs : List Message) :
    (msgs.map msgRankCount).sum =
      ((msgs.filter isAnalyzedMessage).map processedRankingCount).sum := by
  induction msgs with
  | nil => rfl
  | cons m msgs ih =>
    rw [List.map_cons, List.sum_cons, List.filter_cons, msgRankCount_eq]
    by_cases h : isAnalyzedMessage m <;> simp [h, ih]

theorem sum_convAnalyzed (convs : List Conversation) :
    (convs.map convAnalyzed).sum = (analyzedMessages convs).length := by
  induction convs with
  | nil => rfl
  | cons c convs ih =>
    have hc : convAnalyzed c =
        if c.archived.getD false then 0 else (c.messages.map msgAnalyzed).sum := rfl
    have hmsgs : analyzedMessages (c :: convs) =
        (if c.archived.getD false then []
          else c.messages.filter isAnalyzedMessage) ++ analyzedMessages convs := by
      unfold analyzedMessages nonArchived
      rw [List.filter_cons]
      by_cases ha : c.archived.getD false <;> simp [ha, List.filter_append]
    rw [List.map_cons, List.sum_cons, hc, hmsgs]
    by_cases ha : c.archived.getD false <;>
      simp [ha, ih, sum_msgAnalyzed]

theorem sum_convRankCount (convs : List Conversation) :
    (convs.map convRankCount).sum =
      ((analyzedMessages convs).map processedRankingCount).sum := by
  induction convs with
  | nil => rfl
  | cons c convs ih =>
    have hc : convRankCount c =
        if c.archived.getD false then 0 else (c.messages.map msgRankCount).sum := rfl
    have hmsgs : analyzedMessages (c :: convs) =
        (if c.archived.getD false then []
          else c.messages.filter isAnalyzedMessage) ++ analyzedMessages convs := by
      unfold analyzedMessages nonArchived
      rw [List.filter_cons]
      by_cases ha : c.archived.getD false <;> simp [ha, List.filter_append]
    rw [List.map_cons, List.sum_cons, hc, hmsgs]
    by_cases ha : c.archived.getD false <;>
      simp [ha, ih, sum_msgRankCount]

theorem events_nonArchived (convs : List Conversation) :
    events (nonArchived convs) = events convs := by
  induction convs with
  | nil => rfl
  | cons c convs ih =>
    unfold nonArchived events at ih ⊢
    rw [List.filter_cons]
    by_cases ha : c.archived.getD false <;>
      simp [ha, eventsOfConversation, ih]

theorem sum_convAnalyzed_nonArchived (convs : List Conversation) :
    ((nonArchived convs).map convAnalyzed).sum = (convs.map convAnalyzed).sum := by
  induction convs with
  | nil => rfl
  | cons c convs ih =>
    unfold nonArchived at ih ⊢
    rw [List.filter_cons]
    have hc : convAnalyzed c =
        if c.archived.getD false then 0 else (c.messages.map msgAnalyzed).sum := rfl
    by_cases ha : c.archived.getD false <;> simp [ha, hc, ih]

theorem sum_convRankCount_nonArchived (convs : List Conversation) :
    ((nonArchived convs).map convRankCount).sum = (convs.map convRankCount).sum := by
  induction convs with
  | nil => rfl
  | cons c convs ih =>
    unfold nonArchived at ih ⊢
    rw [List.filter_cons]
    have hc : convRankCount c =
        if c.archived.getD false then 0 else (c.messages.map msgRankCount).sum := rfl
    by_cases ha : c.archived.getD false <;> simp [ha, hc, ih]

theorem events_append (convs₁ convs₂ : List Conversation) :
    events (convs₁ ++ convs₂) = events convs₁ ++ events convs₂ := by
  unfold events
  rw [List.flatMap_append]

/-- Bound on the podium counters: the three place counts are lengths
of filters of the same occurrence list by mutually exclusive
conditions. -/
theorem places_le_length (l : List Event) :
    (l.filter (fun ev => decide (ev.2.2 = 0))).length +
      (l.filter (fun ev => decide (ev.2.2 = 1))).length +
      (l.filter (fun ev => decide (ev.2.2 = 2))).length ≤ l.length := by
  induction l with
  | nil => simp
  | cons ev l ih =>
    simp only [List.filter_cons]
    split_ifs with h0 h1 h2 h1 h2 h2 <;>
      simp_all <;> omega

/-- `get_conversation` returns `None` exactly when no stored file has
the requested id. -/
theorem get_conversation_eq_none (s : Store) (cid : String) :
    get_conversation s cid = none ↔ ∀ p ∈ s, p.1 ≠ cid := by
  induction s with
  | nil => simp [get_conversation]
  | cons p rest ih =>
    obtain ⟨i, c⟩ := p
    unfold get_conversation
    by_cases hic : i = cid
    · simp [hic]
    · simp [hic, ih]

/-! ## The claims -/

/-- **C1**: for every stored collection and every label `L` occurring
in a processed `parsed_ranking`, the leaderboard entry for `L` has
`total_points = Σ (len(stage2) − position)` over `L`'s occurrences and
`rankings_received` = number of occurrences of `L`. -/
theorem claim_C1_totals (convs : List Conversation) (L : String)
    (h : occurrencesOf convs L ≠ []) :
    ∃ e ∈ (get_overall_scores convs).leaderboard,
      e.model = L ∧
      e.total_points =
        ((occurrencesOf convs L).map
          (fun ev => (ev.2.1 : Int) - (ev.2.2 : Int))).sum ∧
      e.rankings_received = (occurrencesOf convs L).length := by
  have hL : L ∈ labelsOf (events convs) := by
    obtain ⟨ev, hev⟩ := List.exists_mem_of_ne_nil _ h
    have hm := List.mem_filter.mp hev
    exact (mem_labelsOf _ _).mpr ⟨ev, hm.1, by simpa using hm.2⟩
  refine ⟨finalizeEntry (entrySpec (events convs) L), ?_, rfl, rfl, rfl⟩
  rw [leaderboard_eq]
  exact ((List.mergeSort_perm _ _).mem_iff).mpr (List.mem_map_of_mem _ hL)

/-- Witness for C1 at the scenario conversation and label "m2". -/
theorem claim_C1_totals_witness :
    occurrencesOf [scenarioConversation] "m2" ≠ [] ∧
    ∃ e ∈ (get_overall_scores [scenarioConversation]).leaderboard,
      e.model = "m2" ∧
      e.total_points =
        ((occurrencesOf [scenarioConversation] "m2").map
          (fun ev => (ev.2.1 : Int) - (ev.2.2 : Int))).sum ∧
      e.rankings_received = (occurrencesOf [scenarioConversation] "m2").length :=
  ⟨by decide, claim_C1_totals [scenarioConversation] "m2" (by decide)⟩

/-- **C2**: points are computed literally as `len(stage2) − position`
with no lower bound.  On the spec's scenario the full output is: m1
with `total_points = 1` listed before m2 with `total_points = 0`; with
a third ranked label under a single judge the points go negative
(m3 gets `1 − 2 = −1`). -/
theorem claim_C2_literal_points :
    get_overall_scores [scenarioConversation] =
      { leaderboard := [scenarioEntryM1, scenarioEntryM2],
        total_conversations_analyzed := 1,
        total_rankings_processed := 1 } ∧
    ∃ e ∈ (get_overall_scores [longRankingConversation]).leaderboard,
      e.model = "m3" ∧ e.total_points = -1 := by
  constructor
  · with_unfolding_all rfl
  · refine ⟨⟨"m3", -1, 1, 0, 0, 1, 3, -1⟩, ?_, rfl, rfl⟩
    have hlb : (get_overall_scores [longRankingConversation]).leaderboard =
        [⟨"m1", 1, 1, 1, 0, 0, 1, 1⟩, ⟨"m2", 0, 1, 0, 1, 0, 2, 0⟩,
         ⟨"m3", -1, 1, 0, 0, 1, 3, -1⟩] := by
      with_unfolding_all rfl
    rw [hlb]
    simp

/-- **C3**: `total_conversations_analyzed` counts assistant messages
with non-empty `stage2` across non-archived conversations (one per
message, none for `stage2 = []`); `total_rankings_processed` counts
the ranking results with non-empty `parsed_ranking` among those
messages. -/
theorem claim_C3_counters (convs : List Conversation) :
    (get_overall_scores convs).total_conversations_analyzed =
      (analyzedMessages convs).length ∧
    (get_overall_scores convs).total_rankings_processed =
      ((analyzedMessages convs).map processedRankingCount).sum := by
  rw [get_overall_scores_eq]
  exact ⟨sum_convAnalyzed convs, sum_convRankCount convs⟩

/-- **C4**: archived conversations contribute nothing: the result
equals the result on the non-archived sub-collection, and inserting a
conversation with `archived = true` (even one holding ranking data)
anywhere leaves the whole result unchanged. -/
theorem claim_C4_archived_inert (convs pre post : List Conversation)
    (c : Conversation) :
    get_overall_scores (nonArchived convs) = get_overall_scores convs ∧
    (c.archived = some true →
      get_overall_scores (pre ++ c :: post) = get_overall_scores (pre ++ post)) := by
  constructor
  · rw [get_overall_scores_eq, get_overall_scores_eq, events_nonArchived,
      sum_convAnalyzed_nonArchived, sum_convRankCount_nonArchived]
  · intro hc
    rw [get_overall_scores_eq, get_overall_scores_eq]
    have hsplit : pre ++ c :: post = pre ++ [c] ++ post := by simp
    have h1 : events (pre ++ c :: post) = events (pre ++ post) := by
      rw [hsplit, events_append, events_append, events_append]
      simp [events, eventsOfConversation, hc]
    have h2 : ((pre ++ c :: post).map convAnalyzed).sum =
        ((pre ++ post).map convAnalyzed).sum := by
      simp [List.map_append, List.sum_append, convAnalyzed, hc]
    have h3 : ((pre ++ c :: post).map convRankCount).sum =
        ((pre ++ post).map convRankCount).sum := by
      simp [List.map_append, List.sum_append, convRankCount, hc]
    rw [h1, h2, h3]

/-- Witness for C4: dropping a concrete archived conversation with
ranking data from the store leaves the result unchanged. -/
theorem claim_C4_archived_inert_witness :
    get_overall_scores ([scenarioConversation] ++ archivedConversation :: []) =
      get_overall_scores ([scenarioConversation] ++ []) :=
  (claim_C4_archived_inert [] [scenarioConversation] [] archivedConversation).2 rfl

/-- **C5**: the leaderboard is sorted non-increasing by
`total_points`: every adjacent pair is ordered. -/
theorem claim_C5_sorted (convs : List Conversation) :
    List.Chain' (fun a b : FinalEntry => b.total_points ≤ a.total_points)
      (get_overall_scores convs).leaderboard := by
  rw [leaderboard_eq]
  have hp :=
    @List.sorted_mergeSort FinalEntry
      (fun a b => decide (b.total_points ≤ a.total_points))
      (fun a b c hab hbc => by
        simp only [decide_eq_true_eq] at hab hbc ⊢
        exact le_trans hbc hab)
      (fun a b => by
        simp only [Bool.or_eq_true, decide_eq_true_eq]
        exact le_total b.total_points a.total_points)
      ((labelsOf (events convs)).map fun L => finalizeEntry (entrySpec (events convs) L))
  exact (hp.imp (fun h => by simpa using h)).chain'

/-- **C6**: every returned entry has `average_points = total_points /
rankings_received` (exact division) and `average_position` equal to
the arithmetic mean of the 1-indexed positions at which the label
occurred.  The raw position history is absent from the returned entry
by construction: `FinalEntry`, the return shape produced by
`finalizeEntry` after `del scores["position_history"]`, carries no
history field. -/
theorem claim_C6_averages (convs : List Conversation) (e : FinalEntry)
    (he : e ∈ (get_overall_scores convs).leaderboard) :
    e.average_points = (e.total_points : ℚ) / (e.rankings_received : ℚ) ∧
    e.average_position =
      ((occurrencesOf convs e.model).map (fun ev => (ev.2.2 : ℚ) + 1)).sum /
        ((occurrencesOf convs e.model).length : ℚ) ∧
    0 < e.rankings_received := by
  rw [leaderboard_eq, (List.mergeSort_perm _ _).mem_iff] at he
  obtain ⟨L, hL, rfl⟩ := List.mem_map.mp he
  refine ⟨rfl, ?_, entrySpec_rankings_pos _ _ hL⟩
  have hmodel : (finalizeEntry (entrySpec (events convs) L)).model = L := rfl
  rw [hmodel]
  simp only [occurrencesOf]
  have h1 : (finalizeEntry (entrySpec (events convs) L)).average_position =
      (((eventsFor (events convs) L).map (fun ev => ev.2.2 + 1)).map
        (fun p : Nat => (p : ℚ))).sum /
      (((eventsFor (events convs) L).map (fun ev => ev.2.2 + 1)).length : ℚ) := rfl
  rw [h1, List.map_map, List.length_map]
  congr 1
  refine congrArg List.sum (List.map_congr_left fun ev hev => ?_)
  simp [Function.comp]

/-- Witness for C6 at the scenario's m1 entry. -/
theorem claim_C6_averages_witness :
    scenarioEntryM1 ∈ (get_overall_scores [scenarioConversation]).leaderboard ∧
    (scenarioEntryM1.average_points =
        (scenarioEntryM1.total_points : ℚ) / (scenarioEntryM1.rankings_received : ℚ) ∧
      scenarioEntryM1.average_position =
        ((occurrencesOf [scenarioConversation] scenarioEntryM1.model).map
          (fun ev => (ev.2.2 : ℚ) + 1)).sum /
          ((occurrencesOf [scenarioConversation] scenarioEntryM1.model).length : ℚ) ∧
      0 < scenarioEntryM1.rankings_received) := by
  have hmem : scenarioEntryM1 ∈ (get_overall_scores [scenarioConversation]).leaderboard := by
    have hlb : (get_overall_scores [scenarioConversation]).leaderboard =
        [scenarioEntryM1, scenarioEntryM2] := by
      with_unfolding_all rfl
    rw [hlb]
    exact List.mem_cons_self _ _
  exact ⟨hmem, claim_C6_averages [scenarioConversation] scenarioEntryM1 hmem⟩

/-- **C7**: the aggregator is total and silently skips malformed
entries: a message that is not an assistant message, or whose `stage2`
is missing or empty, leaves the state untouched, and a ranking result
whose `parsed_ranking` is missing or empty leaves the state untouched
(no counter or entry is changed).  Totality is by construction:
`get_overall_scores` is a total function of the stored conversations. -/
theorem claim_C7_skips_malformed (st : AggState) (m : Message) (n : Nat)
    (r : RankingResult) :
    ((m.role ≠ some "assistant" ∨ m.stage2 = none ∨ m.stage2 = some []) →
      processMessage st m = st) ∧
    ((r.parsed_ranking = none ∨ r.parsed_ranking = some []) →
      processRankingResult n st r = st) := by
  constructor
  · rintro (h | h | h) <;> simp [processMessage, h]
  · rintro (h | h) <;> simp [processRankingResult, h]

/-- Witness for C7: a user message and a ranking result with missing
fields are skipped. -/
theorem claim_C7_skips_malformed_witness :
    processMessage ⟨[], 0, 0⟩
        { role := some "user", content := some "hi", stage1 := none,
          stage2 := none, stage3 := none } = ⟨[], 0, 0⟩ ∧
    processRankingResult 2 ⟨[], 0, 0⟩
        { model := some "judgeA", parsed_ranking := none } = ⟨[], 0, 0⟩ :=
  ⟨(claim_C7_skips_malformed ⟨[], 0, 0⟩
      { role := some "user", content := some "hi", stage1 := none,
        stage2 := none, stage3 := none } 2
      { model := some "judgeA", parsed_ranking := none }).1
      (Or.inr (Or.inl rfl)),
   (claim_C7_skips_malformed ⟨[], 0, 0⟩
      { role := some "user", content := some "hi", stage1 := none,
        stage2 := none, stage3 := none } 2
      { model := some "judgeA", parsed_ranking := none }).2
      (Or.inl rfl)⟩

/-- **C8 (counterexample)**: `delete_conversation` on an absent id
does NOT surface a failure: the `os.path.exists` guard makes it a
silent no-op, so the claim is false for `delete_conversation`. -/
theorem claim_C8_counterexample :
    get_conversation ([] : Store) "missing" = none ∧
    delete_conversation ([] : Store) "missing" = Except.ok [] ∧
    ¬ ∃ msg, delete_conversation ([] : Store) "missing" = Except.error msg := by
  refine ⟨rfl, rfl, ?_⟩
  rintro ⟨msg, hmsg⟩
  exact Except.noConfusion hmsg

/-- **C8 (amended)**: `add_user_message`, `add_assistant_message`,
`update_conversation_title` and `archive_conversation` invoked with an
absent conversation id surface a failure carrying the conversation id
(raising before any write, so the store is unchanged), while
`delete_conversation` on an absent id is a silent no-op that returns
the store unchanged. -/
theorem claim_C8_not_found (s : Store) (cid content title : String)
    (stage1 : List String) (stage2 : List RankingResult) (stage3 : String)
    (b : Bool) (h : get_conversation s cid = none) :
    add_user_message s cid content =
      .error ("Conversation " ++ cid ++ " not found") ∧
    add_assistant_message s cid stage1 stage2 stage3 =
      .error ("Conversation " ++ cid ++ " not found") ∧
    update_conversation_title s cid title =
      .error ("Conversation " ++ cid ++ " not found") ∧
    archive_conversation s cid b =
      .error ("Conversation " ++ cid ++ " not found") ∧
    delete_conversation s cid = .ok s := by
  refine ⟨?_, ?_, ?_, ?_, ?_⟩
  · rw [add_user_message, h]
  · rw [add_assistant_message, h]
  · rw [update_conversation_title, h]
  · rw [archive_conversation, h]
  · rw [delete_conversation]
    congr 1
    rw [List.filter_eq_self]
    intro p hp
    simpa using (get_conversation_eq_none s cid).mp h p hp

/-- Witness for C8 (amended) on a store holding an unrelated
conversation and the absent id "b". -/
theorem claim_C8_not_found_witness :
    get_conversation [("a", scenarioConversation)] "b" = none ∧
    (add_user_message [("a", scenarioConversation)] "b" "hello" =
        .error ("Conversation " ++ "b" ++ " not found") ∧
      add_assistant_message [("a", scenarioConversation)] "b" [] [] "fin" =
        .error ("Conversation " ++ "b" ++ " not found") ∧
      update_conversation_title [("a", scenarioConversation)] "b" "t" =
        .error ("Conversation " ++ "b" ++ " not found") ∧
      archive_conversation [("a", scenarioConversation)] "b" true =
        .error ("Conversation " ++ "b" ++ " not found") ∧
      delete_conversation [("a", scenarioConversation)] "b" =
        .ok [("a", scenarioConversation)]) :=
  ⟨by decide,
    claim_C8_not_found [("a", scenarioConversation)] "b" "hello" "t" [] [] "fin"
      true (by decide)⟩

/-- **C9**: saving a conversation and loading it back by its id
reproduces the identical message sequence, in order. -/
theorem claim_C9_round_trip (s : Store) (c : Conversation) :
    ∃ c', get_conversation (save_conversation s c) c.id = some c' ∧
      c'.messages = c.messages := by
  refine ⟨c, ?_, rfl⟩
  induction s with
  | nil => simp [save_conversation, get_conversation]
  | cons p rest ih =>
    obtain ⟨i, cc⟩ := p
    unfold save_conversation
    by_cases hic : i = c.id
    · rw [if_pos hic]
      unfold get_conversation
      rw [if_pos hic]
    · rw [if_neg hic]
      unfold get_conversation
      rw [if_neg hic]
      exact ih

/-- **C10**: every returned leaderboard entry has
`rankings_received ≥ 1` (so the two divisions have nonzero
denominators), comes from an accumulator entry whose position history
was non-empty when the averages were computed, and satisfies
`first_places + second_places + third_places ≤ rankings_received`. -/
theorem claim_C10_division_safety (convs : List Conversation) (e : FinalEntry)
    (he : e ∈ (get_overall_scores convs).leaderboard) :
    1 ≤ e.rankings_received ∧
    ((e.rankings_received : ℚ) ≠ 0) ∧
    e.first_places + e.second_places + e.third_places ≤ e.rankings_received ∧
    ∃ s : ScoreEntry, e = finalizeEntry s ∧ s.position_history ≠ [] ∧
      s.position_history.length = s.rankings_received := by
  rw [leaderboard_eq, (List.mergeSort_perm _ _).mem_iff] at he
  obtain ⟨L, hL, rfl⟩ := List.mem_map.mp he
  have hpos := entrySpec_rankings_pos (events convs) L hL
  refine ⟨hpos, ?_, ?_, entrySpec (events convs) L, rfl, ?_, ?_⟩
  · exact_mod_cast Nat.pos_iff_ne_zero.mp hpos
  · exact places_le_length _
  · rw [← List.length_pos]
    simpa [entrySpec] using hpos
  · simp [entrySpec]

/-- Witness for C10 at the scenario's m2 entry. -/
theorem claim_C10_division_safety_witness :
    scenarioEntryM2 ∈ (get_overall_scores [scenarioConversation]).leaderboard ∧
    (1 ≤ scenarioEntryM2.rankings_received ∧
      ((scenarioEntryM2.rankings_received : ℚ) ≠ 0) ∧
      scenarioEntryM2.first_places + scenarioEntryM2.second_places +
          scenarioEntryM2.third_places ≤ scenarioEntryM2.rankings_received ∧
      ∃ s : ScoreEntry, scenarioEntryM2 = finalizeEntry s ∧
        s.position_history ≠ [] ∧
        s.position_history.length = s.rankings_received) := by
  have hmem : scenarioEntryM2 ∈ (get_overall_scores [scenarioConversation]).leaderboard := by
    have hlb : (get_overall_scores [scenarioConversation]).leaderboard =
        [scenarioEntryM1, scenarioEntryM2] := by
      with_unfolding_all rfl
    rw [hlb]
    exact List.mem_cons_of_mem _ (List.mem_cons_self _ _)
  exact ⟨hmem, claim_C10_division_safety [scenarioConversation] scenarioEntryM2 hmem⟩

end LlmCouncil
